import Mathlib

/-!
Shallow embedding of the core of the Bear repository (rust):
  * `src/rust/intercept/src/bin/wrapper.rs` — the stand-in runner
    (`main`, `file_name_from_arguments`, `next_in_path`, `report`,
    `into_execution`);
  * `src/rust/bear/src/semantic/mod.rs` — the semantic data model
    (`Meaning`, `CompilerPass`, `Recognition<T>`, the `Interpreter` trait);
  * `src/rust/bear/src/recognition.rs` — the recognition driver
    (`Recognition::try_from`, `Recognition::apply`).

Process-global effects (argument vector, environment variables, the file
system, the current executable path, the TCP reporter, spawning a child)
are threaded in explicitly: the file system is a structure of predicates,
fallible system calls are `Except String` values and the reporter and the
child spawn are function-valued parameters.  Paths are plain strings.
Logging is modelled as an explicit list of log entries where a claim
needs it; otherwise it is dropped.
-/

/-- A file-system model: whether a path names a regular file, whether it is
executable (present in the model because the wrapper deliberately never
consults it), and the result of canonicalization (`none` when
canonicalization fails, e.g. a dangling symlink). -/
structure FileSystem where
  isFile : String → Bool
  isExecutable : String → Bool
  canonicalize : String → Option String

/-- Rust `str::split` with a one-character separator: splits the character
list at every occurrence of `sep`; the empty input yields one empty piece. -/
def splitChar (sep : Char) : List Char → List (List Char)
  | [] => [[]]
  | c :: cs =>
    if c = sep then [] :: splitChar sep cs
    else
      match splitChar sep cs with
      | r :: rs => (c :: r) :: rs
      | [] => [[c]]

/-- `str::split` on a `String`, producing `String` pieces. -/
def splitString (sep : Char) (s : String) : List String :=
  (splitChar sep s.data).map (fun cs => String.mk cs)

/-- Rust `Path::new(dir).join(target)` for the case used by the wrapper:
`target` is a bare file name (the result of `Path::file_name`), so joining
appends it to `dir` with a `/` separator unless `dir` is empty or already
ends with a separator. -/
def pathJoin (dir target : String) : String :=
  if dir.data = [] then target
  else if dir.data.getLast? = some '/' then dir ++ target
  else dir ++ "/" ++ target

/-- Rust `Path::file_name`: the last normal component of the path
(`.` components and empty components are ignored), `none` when the path is
empty, is a root, or terminates in `..`. -/
def rustFileName (p : String) : Option String :=
  match ((splitString '/' p).filter (fun c => c ≠ "" && c ≠ ".")).getLast? with
  | some c => if c = ".." then none else some c
  | none => none

/-- `file_name_from_arguments` from `wrapper.rs`: take the first process
argument and extract its file-name component; both steps can fail. -/
def file_name_from_arguments (args : List String) : Except String String :=
  match args.head? with
  | none => .error "Cannot get first argument"
  | some arg =>
    match rustFileName arg with
    | some file_name => .ok file_name
    | none => .error "Cannot get the file name from the argument"

/-- The candidate predicate applied by `next_in_path` after the `is_file`
filter: canonicalization must succeed and the canonical path must differ
from the current executable's canonical path. -/
def notSelf (fs : FileSystem) (current_exe : String) (path : String) : Bool :=
  match fs.canonicalize path with
  | some real_path => real_path != current_exe
  | none => false

/-- The core of `next_in_path` from `wrapper.rs`, after the `PATH` variable
and the current executable path have been read successfully: split `PATH`
on `:`, join each directory with the target name, keep regular files, drop
candidates whose canonical path is the current executable (or whose
canonicalization fails), and take the first remaining candidate. -/
def next_in_path_resolved (fs : FileSystem) (current_exe pathVariable target : String) :
    Except String String :=
  let candidates := (splitString ':' pathVariable).map (fun dir => pathJoin dir target)
  let files := candidates.filter (fun p => fs.isFile p)
  let kept := files.filter (fun p => notSelf fs current_exe p)
  match kept.head? with
  | some p => .ok p
  | none => .error "Cannot find the real executable"

/-- `next_in_path` from `wrapper.rs`: reading `$PATH` or the current
executable path may itself fail (the `?` operators), then resolution runs. -/
def next_in_path (fs : FileSystem) (pathVariable current_exe : Except String String)
    (target : String) : Except String String := do
  let path ← pathVariable
  let exe ← current_exe
  next_in_path_resolved fs exe path target

/-- The ordered candidate list `next_in_path` scans, in `PATH` order. -/
def candidatesOf (pathVariable target : String) : List String :=
  (splitString ':' pathVariable).map (fun dir => pathJoin dir target)

/-- The combined keep-condition of `next_in_path`'s two filters. -/
def keptCandidate (fs : FileSystem) (current_exe : String) (p : String) : Bool :=
  fs.isFile p && notSelf fs current_exe p

/-- The `Execution` record from the `intercept` crate, as constructed by
`into_execution` in `wrapper.rs` and consumed by the recognition driver. -/
structure Execution where
  executable : String
  arguments : List String
  working_dir : String
  environment : List (String × String)
deriving DecidableEq

/-- The `Event` wire payload: the reporting process id plus the record. -/
structure Event where
  pid : Nat
  execution : Execution
deriving DecidableEq

/-- The reporting-side effects of the wrapper process, threaded explicitly:
the process id, the result of `std::env::current_dir()`, the environment
snapshot (`std::env::vars()`), the result of reading `$KEY_DESTINATION`,
`TcpReporter::new` on an address, and sending an event on the connection. -/
structure ReportCtx where
  pid : Nat
  currentDir : Except String String
  envVars : List (String × String)
  destination : Except String String
  connect : String → Except String Unit
  send : String → Event → Except String Unit

/-- `into_execution` from `wrapper.rs`: the record's executable is the
resolved path, the arguments are the process's own argument vector
unchanged, the working directory comes from `current_dir` (fallible) and
the environment is the full snapshot. -/
def into_execution (rc : ReportCtx) (args : List String) (path_buf : String) :
    Except String Execution :=
  rc.currentDir.map (fun working_dir =>
    { executable := path_buf
      arguments := args
      working_dir := working_dir
      environment := rc.envVars })

/-- `report` from `wrapper.rs`: wrap the record in an `Event` with this
process's id, read the destination variable, create a TCP reporter for the
address, and send; each step can fail. -/
def report (rc : ReportCtx) (execution : Execution) : Except String Unit :=
  let event : Event := { pid := rc.pid, execution := execution }
  match rc.destination with
  | .error _ => .error "$KEY_DESTINATION is missing from the environment"
  | .ok address =>
    match rc.connect address with
    | .error _ => .error "Cannot create TCP execution reporter"
    | .ok _ => rc.send address event

/-- The observable end of the wrapper process: `exited code` models
`std::process::exit(code)` after the child ran; `failed msg` models `main`
returning `Err` (the runtime then exits non-zero without spawning). -/
inductive MainResult where
  | exited (code : Int)
  | failed (msg : String)
deriving DecidableEq

/-- The log entries of `main` relevant to the reporting phase. -/
inductive LogEntry where
  | executionReported
  | reportingFailed (msg : String)
  | executionFinished
deriving DecidableEq

/-- `main` from `wrapper.rs` as a pure function of its effect inputs:
`args` is `std::env::args()`, `pathVariable` and `current_exe` the results
of reading `$PATH` and `current_exe()`, `fs` the file system, `rc` the
reporting context, and `spawn` runs the child on an executable and an
argument list, returning its `ExitStatus::code()` (`none` when the child
was killed by a signal) or an io error.  The result pairs the process
outcome with the reporting-phase log. -/
def wrapperMain (args : List String) (pathVariable current_exe : Except String String)
    (fs : FileSystem) (rc : ReportCtx)
    (spawn : String → List String → Except String (Option Int)) :
    MainResult × List LogEntry :=
  match file_name_from_arguments args with
  | .error e => (.failed e, [])
  | .ok executable =>
    match next_in_path fs pathVariable current_exe executable with
    | .error e => (.failed e, [])
    | .ok real_executable =>
      let reportLog :=
        match (into_execution rc args real_executable).bind (fun ex => report rc ex) with
        | .ok _ => LogEntry.executionReported
        | .error e => LogEntry.reportingFailed e
      match spawn real_executable (args.drop 1) with
      | .error e => (.failed e, [reportLog])
      | .ok status => (.exited (status.getD 1), [reportLog, .executionFinished])

namespace Semantic

/-- `CompilerPass` from `semantic/mod.rs`. -/
inductive CompilerPass where
  | preprocess
  | compile (source : String) (output : Option String) (flags : List String)
deriving DecidableEq

/-- `Meaning` from `semantic/mod.rs`. -/
inductive Meaning where
  | compiler (compiler : String) (working_dir : String) (passes : List CompilerPass)
  | ignored
deriving DecidableEq

/-- `Recognition<T>` from `semantic/mod.rs`. -/
inductive Recognition (T : Type) where
  | success (value : T)
  | error (reason : String)
  | unknown
deriving DecidableEq

end Semantic

/-- The `Recognition` driver struct from `recognition.rs`; the boxed
`dyn Interpreter` trait object is a function from executions to
recognition outcomes. -/
structure Recognition where
  interpreter : Execution → Semantic.Recognition Semantic.Meaning

/-- `Recognition::apply` from `recognition.rs`: `Success(Ignored)`,
`Error(_)` and `Unknown` are logged and become `none`; any other
`Success` is returned. -/
def Recognition.apply (r : Recognition) (execution : Execution) :
    Option Semantic.Meaning :=
  match r.interpreter execution with
  | .success .ignored => none
  | .success semantic => some semantic
  | .error _ => none
  | .unknown => none

namespace Config

/-- `config::Ignore` as used by `recognition.rs`; only `Always` is
inspected there, the other policies are collapsed into named variants. -/
inductive Ignore where
  | always
  | conditional
  | never
deriving DecidableEq

/-- One entry of the `compilers` list of `config::Output::Clang`: a path
and an ignore policy (the fields `recognition.rs` reads). -/
structure Compiler where
  path : String
  ignore : Ignore
deriving DecidableEq

/-- `config::Intercept` as matched by `recognition.rs`: the `Wrapper`
flavor carries its `executables` list; every other flavor is collapsed
into `other`, matching the wildcard arm of the source `match`. -/
inductive Intercept where
  | wrapper (executables : List String)
  | other
deriving DecidableEq

/-- `config::Output` as matched by `recognition.rs`: the `Clang` flavor
carries its `compilers` list; every other flavor is collapsed into
`other`, matching the wildcard arm of the source `match`. -/
inductive Output where
  | clang (compilers : List Compiler)
  | other
deriving DecidableEq

/-- The part of `config::Main` read by `Recognition::try_from`. -/
structure Main where
  intercept : Intercept
  output : Output

end Config

/-- The `compilers_to_include` binding of `Recognition::try_from`:
the `executables` of the `Wrapper` intercept flavor, otherwise empty. -/
def compilers_to_include (config : Config.Main) : List String :=
  match config.intercept with
  | .wrapper executables => executables
  | .other => []

/-- The `compilers_to_exclude` binding of `Recognition::try_from`: for the
`Clang` output flavor, the paths of the configured compilers whose ignore
policy is `Always`; otherwise empty. -/
def compilers_to_exclude (config : Config.Main) : List String :=
  match config.output with
  | .clang compilers =>
    (compilers.filter (fun compiler => compiler.ignore == .always)).map
      (fun compiler => compiler.path)
  | .other => []

/-- Modelled from the spec: the engine assembled by
`semantic::interpreters::Builder` (the `interpreters` module is not among
the provided sources).  Per §4.4 of the spec: the exclusion filter has
highest priority and returns `Success(Ignored)` immediately when the
executable is a member of `compilers_to_exclude`; then the built-in family
classifiers are tried in fixed order and the first outcome that is not
`Unknown` wins; then the explicit-inclusion matcher synthesizes a generic
`Compiler` meaning for members of `compilers_to_recognize`; otherwise
`Unknown`.  The built-in classifiers and the synthesized generic meaning
are abstract parameters. -/
def builderRecognize (toRecognize toExclude : List String)
    (builtins : List (Execution → Semantic.Recognition Semantic.Meaning))
    (generic : Execution → Semantic.Meaning)
    (execution : Execution) : Semantic.Recognition Semantic.Meaning :=
  if toExclude.contains execution.executable then
    .success .ignored
  else
    match builtins.findSome? (fun classifier =>
        match classifier execution with
        | .unknown => none
        | outcome => some outcome) with
    | some outcome => outcome
    | none =>
      if toRecognize.contains execution.executable then
        .success (generic execution)
      else
        .unknown

/-- `Recognition::try_from` from `recognition.rs`: compute the two path
lists from the configuration and build the interpreter from them; the
builder itself is `builderRecognize` (modelled from the spec).  The
source function is infallible (always `Ok`). -/
def Recognition.try_from (config : Config.Main)
    (builtins : List (Execution → Semantic.Recognition Semantic.Meaning))
    (generic : Execution → Semantic.Meaning) :
    Except String Recognition :=
  .ok { interpreter :=
          builderRecognize (compilers_to_include config)
            (compilers_to_exclude config) builtins generic }

/-! ## Helper lemmas -/

/-- Two filters followed by `head?` pick the first element satisfying the
conjunction of the predicates, i.e. `find?` of the conjunction. -/
theorem filter_filter_head?_eq_find? {α : Type} (p q : α → Bool) (l : List α) :
    ((l.filter p).filter q).head? = l.find? (fun a => p a && q a) := by
  have hfun : (fun a => q a && p a) = (fun a => p a && q a) := by
    funext a
    exact Bool.and_comm (q a) (p a)
  simp [hfun]

/-- `next_in_path` on successfully read variables is `find?` of the
keep-condition over the ordered candidate list. -/
theorem next_in_path_eq_find? (fs : FileSystem) (pv ce t : String) :
    next_in_path fs (.ok pv) (.ok ce) t =
      match (candidatesOf pv t).find? (keptCandidate fs ce) with
      | some p => .ok p
      | none => .error "Cannot find the real executable" := by
  show next_in_path_resolved fs ce pv t = _
  simp only [next_in_path_resolved]
  rw [filter_filter_head?_eq_find? (fun p => fs.isFile p) (fun p => notSelf fs ce p)]
  rfl

/-- Success of `next_in_path` is exactly success of `find?` over the
ordered candidates. -/
theorem next_in_path_ok_iff (fs : FileSystem) (pv ce t p : String) :
    next_in_path fs (.ok pv) (.ok ce) t = .ok p ↔
      (candidatesOf pv t).find? (keptCandidate fs ce) = some p := by
  rw [next_in_path_eq_find?]
  cases hf : (candidatesOf pv t).find? (keptCandidate fs ce) with
  | none => simp
  | some q => simp

/-! ## Concrete instances used by witnesses -/

/-- Resolution restricted to an explicit directory list (what the scan does
after splitting the search-path value). -/
def resolveFromDirs (fs : FileSystem) (ce : String) (dirs : List String)
    (t : String) : Except String String :=
  match (dirs.map (fun dir => pathJoin dir t)).find? (keptCandidate fs ce) with
  | some p => .ok p
  | none => .error "Cannot find the real executable"

/-- A file system where `/a/cc` is a plain (non-executable) regular file and
`/b/cc` is an executable regular file; canonicalization is the identity. -/
def fsDemo : FileSystem :=
  { isFile := fun p => p == "/a/cc" || p == "/b/cc"
    isExecutable := fun p => p == "/b/cc"
    canonicalize := fun p => some p }

/-- `fsDemo` with all execute bits cleared; only executability differs. -/
def fsDemoFlip : FileSystem :=
  { isFile := fun p => p == "/a/cc" || p == "/b/cc"
    isExecutable := fun _ => false
    canonicalize := fun p => some p }

/-- A file system where the stand-in `/w/cc` and the real tool `/u/cc` both
exist; canonicalization is the identity. -/
def fsLoop : FileSystem :=
  { isFile := fun p => p == "/w/cc" || p == "/u/cc"
    isExecutable := fun _ => true
    canonicalize := fun p => some p }

/-- A file system where the first candidate `/d/cc` is a regular file whose
canonicalization fails (a dangling symlink) and `/u/cc` is sound. -/
def fsDangling : FileSystem :=
  { isFile := fun p => p == "/d/cc" || p == "/u/cc"
    isExecutable := fun _ => true
    canonicalize := fun p => if p == "/d/cc" then none else some p }

/-- A reporting context whose destination variable is unset. -/
def rcUnset : ReportCtx :=
  { pid := 7
    currentDir := .ok "/proj"
    envVars := [("PATH", "/w:/u")]
    destination := .error "unset"
    connect := fun _ => .ok ()
    send := fun _ _ => .ok () }

/-- A reporting context where every reporting step succeeds. -/
def rcFine : ReportCtx :=
  { pid := 7
    currentDir := .ok "/proj"
    envVars := [("PATH", "/w:/u")]
    destination := .ok "127.0.0.1:5555"
    connect := fun _ => .ok ()
    send := fun _ _ => .ok () }

/-- An execution record invoking `/usr/bin/cc1`. -/
def exCc1 : Execution :=
  { executable := "/usr/bin/cc1"
    arguments := ["cc1", "a.c"]
    working_dir := "/proj"
    environment := [] }

/-- A built-in classifier that recognizes `/usr/bin/cc1` as a compiler. -/
def cc1Builtin : Execution → Semantic.Recognition Semantic.Meaning :=
  fun e =>
    if e.executable == "/usr/bin/cc1" then
      .success (.compiler "/usr/bin/cc1" e.working_dir [])
    else
      .unknown

/-- A configuration with a `Wrapper` intercept flavor and a `Clang` output
flavor whose compiler list mixes ignore policies. -/
def cfgDemo : Config.Main :=
  { intercept := .wrapper ["/x/cc"]
    output := .clang [{ path := "/usr/bin/cc1", ignore := .always },
                      { path := "/usr/bin/gcc", ignore := .never }] }

/-- A recognition driver whose interpreter recognizes nothing. -/
def rUnknown : Recognition :=
  { interpreter := fun _ => .unknown }

/-! ## Claim theorems -/

/-- C2: on a successfully read search path and stand-in path, resolution
returns the first `directory/invoked_name` candidate, in listed order, that
is a regular file and whose canonicalization succeeds with a path different
from the canonical path of the running stand-in; it never selects a
candidate canonicalizing to the stand-in itself, and it fails with the
resolution error when no candidate remains. -/
theorem next_in_path_first_fit (fs : FileSystem) (pv ce t : String) :
    (∀ p, next_in_path fs (.ok pv) (.ok ce) t = .ok p ↔
        (candidatesOf pv t).find? (keptCandidate fs ce) = some p)
    ∧ (∀ p, next_in_path fs (.ok pv) (.ok ce) t = .ok p →
        ¬ fs.canonicalize p = some ce)
    ∧ ((∀ p ∈ candidatesOf pv t, ¬ keptCandidate fs ce p) →
        next_in_path fs (.ok pv) (.ok ce) t =
          .error "Cannot find the real executable") := by
  have h := next_in_path_eq_find? fs pv ce t
  refine ⟨fun p => next_in_path_ok_iff fs pv ce t p, ?_, ?_⟩
  · intro p hp hc
    have hfind := (next_in_path_ok_iff fs pv ce t p).mp hp
    have hkept : keptCandidate fs ce p = true := List.find?_some hfind
    unfold keptCandidate notSelf at hkept
    rw [hc] at hkept
    simp at hkept
  · intro hall
    rw [h, List.find?_eq_none.mpr hall]

/-- C2 witness: in `fsLoop` with search path `/w:/u`, stand-in `/w/cc`, the
resolution keeps `/u/cc`, which is exactly the first fit. -/
theorem next_in_path_first_fit_witness :
    next_in_path fsLoop (.ok "/w:/u") (.ok "/w/cc") "cc" = .ok "/u/cc" :=
  ((next_in_path_first_fit fsLoop "/w:/u" "/w/cc" "cc").1 "/u/cc").mpr (by rfl)

/-- C9: a candidate whose canonicalization fails is silently skipped: it is
never the resolution result, and whenever any candidate on the path passes
the keep-condition the resolution still succeeds (the failing candidate
cannot turn the scan into a resolution error). -/
theorem canonicalize_failure_skipped (fs : FileSystem) (pv ce t : String) :
    (∀ p, next_in_path fs (.ok pv) (.ok ce) t = .ok p →
        ¬ fs.canonicalize p = none)
    ∧ (∀ q ∈ candidatesOf pv t, keptCandidate fs ce q = true →
        ∃ p, next_in_path fs (.ok pv) (.ok ce) t = .ok p ∧
          keptCandidate fs ce p = true) := by
  have h := next_in_path_eq_find? fs pv ce t
  constructor
  · intro p hp hc
    have hfind := (next_in_path_ok_iff fs pv ce t p).mp hp
    have hkept : keptCandidate fs ce p = true := List.find?_some hfind
    unfold keptCandidate notSelf at hkept
    rw [hc] at hkept
    simp at hkept
  · intro q hq hkq
    cases hf : (candidatesOf pv t).find? (keptCandidate fs ce) with
    | none =>
      exact absurd hkq (List.find?_eq_none.mp hf q hq)
    | some p =>
      refine ⟨p, ?_, List.find?_some hf⟩
      rw [h, hf]

/-- C9 witness: with `/d/cc` a regular file whose canonicalization fails
and `/u/cc` sound, resolution on `/d:/u` still succeeds with a kept
candidate. -/
theorem canonicalize_failure_skipped_witness :
    ∃ p, next_in_path fsDangling (.ok "/d:/u") (.ok "/self") "cc" = .ok p ∧
      keptCandidate fsDangling "/self" p = true :=
  (canonicalize_failure_skipped fsDangling "/d:/u" "/self" "cc").2
    "/u/cc" (by decide) (by rfl)

/-- `find?` over a mapped appended list picks the marked element when
everything before it fails the predicate and it passes. -/
theorem find?_map_append {α β : Type} (f : α → β) (kp : β → Bool)
    (l₁ : List α) (d : α) (l₂ : List α)
    (hd : kp (f d) = true) (h₁ : ∀ x ∈ l₁, ¬ kp (f x) = true) :
    ((l₁ ++ d :: l₂).map f).find? kp = some (f d) := by
  induction l₁ with
  | nil =>
    simp only [List.nil_append, List.map_cons]
    rw [List.find?_cons_of_pos _ hd]
  | cons a l ih =>
    have ha : ¬ kp (f a) = true := h₁ a (List.mem_cons_self a l)
    simp only [List.cons_append, List.map_cons]
    rw [List.find?_cons_of_neg _ ha]
    exact ih (fun x hx => h₁ x (List.mem_cons_of_mem a hx))

/-- C6: during resolution the search-path value is split into directories
on `:` (the platform path separator of the target) and the directories are
tried in the listed order: resolution equals the scan of the split
directory list, and when every directory listed before `d` yields no kept
candidate while `d` does, the result is the candidate of `d` no matter
what directories follow. -/
theorem next_in_path_splits_in_order (fs : FileSystem) (ce t : String) :
    (∀ pv, next_in_path fs (.ok pv) (.ok ce) t =
        resolveFromDirs fs ce (splitString ':' pv) t)
    ∧ (∀ dirs₁ d dirs₂, keptCandidate fs ce (pathJoin d t) = true →
        (∀ d₀ ∈ dirs₁, ¬ keptCandidate fs ce (pathJoin d₀ t) = true) →
        resolveFromDirs fs ce (dirs₁ ++ d :: dirs₂) t = .ok (pathJoin d t)) := by
  constructor
  · intro pv
    rw [next_in_path_eq_find?]
    rfl
  · intro dirs₁ d dirs₂ hd hnone
    unfold resolveFromDirs
    rw [find?_map_append (fun dir => pathJoin dir t) (keptCandidate fs ce)
      dirs₁ d dirs₂ hd hnone]

/-- C6 witness: with stand-in `/w/cc` and the directory list of the scan of
search path `/w:/u`, the directory `/w` yields no kept candidate and `/u`
does, so the result is the candidate of `/u`. -/
theorem next_in_path_splits_in_order_witness :
    resolveFromDirs fsLoop "/w/cc" (["/w"] ++ "/u" :: []) "cc" =
      .ok (pathJoin "/u" "cc") :=
  (next_in_path_splits_in_order fsLoop "/w/cc" "cc").2 ["/w"] "/u" []
    (by rfl) (by decide)

/-- C7: candidates are kept solely on the basis of being a regular file:
any two file systems agreeing on regular files and canonicalization
resolve identically, whatever their execute bits say; and concretely the
non-executable regular file `/a/cc` is selected over the later executable
regular file `/b/cc`. -/
theorem next_in_path_never_checks_executability :
    (∀ fs fs₂ : FileSystem, ∀ pathVariable current_exe : Except String String,
      ∀ t : String,
        fs.isFile = fs₂.isFile → fs.canonicalize = fs₂.canonicalize →
        next_in_path fs pathVariable current_exe t =
          next_in_path fs₂ pathVariable current_exe t)
    ∧ (next_in_path fsDemo (.ok "/a:/b") (.ok "/self") "cc" = .ok "/a/cc"
       ∧ fsDemo.isExecutable "/a/cc" = false
       ∧ fsDemo.isFile "/b/cc" = true
       ∧ fsDemo.isExecutable "/b/cc" = true) := by
  constructor
  · rintro ⟨f, e, c⟩ ⟨f₂, e₂, c₂⟩ pathVariable current_exe t h1 h2
    have hf : f = f₂ := h1
    have hc : c = c₂ := h2
    subst hf
    subst hc
    rfl
  · exact ⟨by rfl, by rfl, by rfl, by rfl⟩

/-- C7 witness: clearing every execute bit of `fsDemo` leaves resolution
unchanged. -/
theorem next_in_path_never_checks_executability_witness :
    next_in_path fsDemo (.ok "/a:/b") (.ok "/self") "cc" =
      next_in_path fsDemoFlip (.ok "/a:/b") (.ok "/self") "cc" :=
  (next_in_path_never_checks_executability).1 fsDemo fsDemoFlip
    (.ok "/a:/b") (.ok "/self") "cc" rfl rfl

/-- C1: any failure of the reporting phase is caught, logged and does not
abort the run.  The process outcome of the wrapper never depends on the
reporting context; once the real tool resolved, the outcome equals exactly
what spawning the real tool with the forwarded arguments yields; and when
the reporting chain fails its error lands in the log. -/
theorem reporting_failure_isolated (args : List String)
    (pathVariable current_exe : Except String String) (fs : FileSystem)
    (spawn : String → List String → Except String (Option Int))
    (rc rc₂ : ReportCtx) :
    ((wrapperMain args pathVariable current_exe fs rc spawn).1 =
      (wrapperMain args pathVariable current_exe fs rc₂ spawn).1)
    ∧ (∀ t real, file_name_from_arguments args = .ok t →
        next_in_path fs pathVariable current_exe t = .ok real →
        (wrapperMain args pathVariable current_exe fs rc spawn).1 =
          match spawn real (args.drop 1) with
          | .error e => .failed e
          | .ok status => .exited (status.getD 1))
    ∧ (∀ t real e, file_name_from_arguments args = .ok t →
        next_in_path fs pathVariable current_exe t = .ok real →
        (into_execution rc args real).bind (fun ex => report rc ex) = .error e →
        LogEntry.reportingFailed e ∈
          (wrapperMain args pathVariable current_exe fs rc spawn).2) := by
  refine ⟨?_, ?_, ?_⟩
  · cases hfn : file_name_from_arguments args with
    | error e => simp only [wrapperMain, hfn]
    | ok t =>
      cases hres : next_in_path fs pathVariable current_exe t with
      | error e => simp only [wrapperMain, hfn, hres]
      | ok real =>
        cases hsp : spawn real (args.drop 1) with
        | error e => simp only [wrapperMain, hfn, hres, hsp]
        | ok status => simp only [wrapperMain, hfn, hres, hsp]
  · intro t real hfn hres
    simp only [wrapperMain, hfn, hres]
    cases hsp : spawn real (args.drop 1) with
    | error e => rfl
    | ok status => rfl
  · intro t real e hfn hres hrep
    simp only [wrapperMain, hfn, hres, hrep]
    cases hsp : spawn real (args.drop 1) with
    | error e₂ => simp
    | ok status => simp

/-- C1 witness: with the collector address unset versus every reporting
step succeeding, the wrapper outcome is identical. -/
theorem reporting_failure_isolated_witness :
    (wrapperMain ["cc", "-c", "a.c"] (.ok "/w:/u") (.ok "/w/cc") fsLoop
        rcUnset (fun _ _ => .ok (some 0))).1 =
      (wrapperMain ["cc", "-c", "a.c"] (.ok "/w:/u") (.ok "/w/cc") fsLoop
        rcFine (fun _ _ => .ok (some 0))).1 :=
  (reporting_failure_isolated ["cc", "-c", "a.c"] (.ok "/w:/u") (.ok "/w/cc")
    fsLoop (fun _ _ => .ok (some 0)) rcUnset rcFine).1

/-- C5: the wrapper process exits with the real tool's exit code when the
child produced one, and with code 1 when the child terminated abnormally
with no exit code available. -/
theorem exit_code_matches_child (args : List String)
    (pathVariable current_exe : Except String String) (fs : FileSystem)
    (rc : ReportCtx) (spawn : String → List String → Except String (Option Int))
    (t real : String) (status : Option Int)
    (hfn : file_name_from_arguments args = .ok t)
    (hres : next_in_path fs pathVariable current_exe t = .ok real)
    (hsp : spawn real (args.drop 1) = .ok status) :
    (∀ c : Int, status = some c →
        (wrapperMain args pathVariable current_exe fs rc spawn).1 = .exited c)
    ∧ (status = none →
        (wrapperMain args pathVariable current_exe fs rc spawn).1 = .exited 1) := by
  constructor
  · intro c hc
    subst hc
    simp only [wrapperMain, hfn, hres, hsp]
    rfl
  · intro hc
    subst hc
    simp only [wrapperMain, hfn, hres, hsp]
    rfl

/-- C5 witness: a child exit code 0 is relayed unchanged. -/
theorem exit_code_matches_child_witness :
    (wrapperMain ["cc"] (.ok "/w:/u") (.ok "/w/cc") fsLoop rcFine
        (fun _ _ => .ok (some 0))).1 = .exited 0 :=
  (exit_code_matches_child ["cc"] (.ok "/w:/u") (.ok "/w/cc") fsLoop rcFine
    (fun _ _ => .ok (some 0)) "cc" "/u/cc" (some 0)
    (by rfl) (by rfl) (by rfl)).1 0 rfl

/-- C8: the reported record carries the resolved real path as its
executable while its argument vector is the original process argument
vector unchanged; in particular element 0 stays the originally invoked
stand-in name and is not replaced by the resolved executable. -/
theorem into_execution_keeps_arguments (fs : FileSystem)
    (pathVariable current_exe : Except String String) (rc : ReportCtx)
    (args : List String) (t real wd : String)
    (_hres : next_in_path fs pathVariable current_exe t = .ok real)
    (hwd : rc.currentDir = .ok wd) :
    into_execution rc args real =
      .ok { executable := real, arguments := args, working_dir := wd,
            environment := rc.envVars }
    ∧ (∀ ex, into_execution rc args real = .ok ex →
        ex.executable = real ∧ ex.arguments = args ∧
        ex.arguments.head? = args.head?) := by
  have h : into_execution rc args real =
      .ok { executable := real, arguments := args, working_dir := wd,
            environment := rc.envVars } := by
    unfold into_execution
    rw [hwd]
    rfl
  refine ⟨h, ?_⟩
  intro ex hex
  rw [h] at hex
  injection hex with hex
  subst hex
  exact ⟨rfl, rfl, rfl⟩

/-- C8 witness: resolving `cc` to `/u/cc` and reporting from `/proj`, the
record keeps `["cc", "-c", "a.c"]` verbatim with executable `/u/cc`. -/
theorem into_execution_keeps_arguments_witness :
    into_execution rcFine ["cc", "-c", "a.c"] "/u/cc" =
      .ok { executable := "/u/cc", arguments := ["cc", "-c", "a.c"],
            working_dir := "/proj", environment := [("PATH", "/w:/u")] } :=
  (into_execution_keeps_arguments fsLoop (.ok "/w:/u") (.ok "/w/cc") rcFine
    ["cc", "-c", "a.c"] "cc" "/u/cc" "/proj" (by rfl) (by rfl)).1

/-- C3: the driver returns a meaning exactly when the engine outcome is a
success carrying a non-ignored meaning (a compiler call), in which case it
returns that meaning; `Success(Ignored)`, `Error(_)` and `Unknown` all
yield nothing, and `apply` is a total function into an option — no outcome
escalates to an error of the surrounding system. -/
theorem apply_returns_only_compiler (r : Recognition) (execution : Execution) :
    (∀ m, r.apply execution = some m ↔
        (r.interpreter execution = .success m ∧
          ∃ c w ps, m = Semantic.Meaning.compiler c w ps))
    ∧ (r.interpreter execution = .success .ignored → r.apply execution = none)
    ∧ (∀ reason, r.interpreter execution = .error reason →
        r.apply execution = none)
    ∧ (r.interpreter execution = .unknown → r.apply execution = none) := by
  cases hr : r.interpreter execution with
  | success m₀ =>
    cases m₀ with
    | compiler c w ps =>
      refine ⟨?_, ?_, ?_, ?_⟩
      · intro m
        constructor
        · intro hm
          have hm₂ : Semantic.Meaning.compiler c w ps = m := by
            simpa [Recognition.apply, hr] using hm
          subst hm₂
          exact ⟨rfl, c, w, ps, rfl⟩
        · rintro ⟨hs, -⟩
          injection hs with hs
          subst hs
          simp [Recognition.apply, hr]
      · intro hig
        injection hig with hig
        cases hig
      · intro reason herr
        cases herr
      · intro hu
        cases hu
    | ignored =>
      refine ⟨?_, ?_, ?_, ?_⟩
      · intro m
        constructor
        · intro hm
          simp [Recognition.apply, hr] at hm
        · rintro ⟨hs, c, w, ps, hm⟩
          injection hs with hs
          rw [hm] at hs
          cases hs
      · intro _
        simp [Recognition.apply, hr]
      · intro reason herr
        cases herr
      · intro hu
        cases hu
  | error reason₀ =>
    refine ⟨?_, ?_, ?_, ?_⟩
    · intro m
      constructor
      · intro hm
        simp [Recognition.apply, hr] at hm
      · rintro ⟨hs, -⟩
        cases hs
    · intro hig
      cases hig
    · intro reason herr
      simp [Recognition.apply, hr]
    · intro hu
      cases hu
  | unknown =>
    refine ⟨?_, ?_, ?_, ?_⟩
    · intro m
      constructor
      · intro hm
        simp [Recognition.apply, hr] at hm
      · rintro ⟨hs, -⟩
        cases hs
    · intro hig
      cases hig
    · intro reason herr
      cases herr
    · intro _
      simp [Recognition.apply, hr]

/-- C3 witness: a driver whose interpreter never recognizes anything
returns nothing on the sample record. -/
theorem apply_returns_only_compiler_witness :
    rUnknown.apply exCc1 = none :=
  (apply_returns_only_compiler rUnknown exCc1).2.2.2 rfl

/-- C4: when the executable of the record is a member of the exclusion
list, the assembled engine returns `Success(Ignored)` immediately,
whatever the arguments and whatever the built-in family classifiers —
including classifiers that would otherwise classify the executable as a
compiler — and whatever the inclusion list says. -/
theorem excluded_executable_short_circuits (toRecognize toExclude : List String)
    (builtins : List (Execution → Semantic.Recognition Semantic.Meaning))
    (generic : Execution → Semantic.Meaning) (execution : Execution)
    (h : execution.executable ∈ toExclude) :
    builderRecognize toRecognize toExclude builtins generic execution =
      .success .ignored := by
  unfold builderRecognize
  rw [if_pos]
  exact List.elem_eq_true_of_mem h

/-- C4 witness: with `compilers_to_exclude = ["/usr/bin/cc1"]` the record
invoking `/usr/bin/cc1` is ignored even though the built-in classifier
`cc1Builtin` would classify it as a compiler. -/
theorem excluded_executable_short_circuits_witness :
    builderRecognize [] ["/usr/bin/cc1"] [cc1Builtin] (fun _ => .ignored) exCc1 =
      .success .ignored ∧
    cc1Builtin exCc1 = .success (.compiler "/usr/bin/cc1" "/proj" []) :=
  ⟨excluded_executable_short_circuits [] ["/usr/bin/cc1"] [cc1Builtin]
      (fun _ => .ignored) exCc1 (by decide), by rfl⟩

/-- C10: at engine construction, the exclusion list is non-empty only when
the output configuration is the `Clang` flavor, and for that flavor it is
exactly the paths of the configured compilers whose ignore policy is
`Always`; the inclusion list is non-empty only when the intercept
configuration is the `Wrapper` flavor, and for that flavor it is exactly
its executables list; `try_from` itself always succeeds with the engine
built from these two lists. -/
theorem try_from_path_sets (config : Config.Main) :
    (compilers_to_exclude config ≠ [] → ∃ cs, config.output = .clang cs)
    ∧ (∀ cs, config.output = .clang cs →
        compilers_to_exclude config =
          (cs.filter (fun compiler => compiler.ignore == .always)).map
            (fun compiler => compiler.path))
    ∧ (compilers_to_include config ≠ [] → ∃ es, config.intercept = .wrapper es)
    ∧ (∀ es, config.intercept = .wrapper es → compilers_to_include config = es)
    ∧ (∀ builtins generic, Recognition.try_from config builtins generic =
        .ok { interpreter :=
                builderRecognize (compilers_to_include config)
                  (compilers_to_exclude config) builtins generic }) := by
  obtain ⟨i, o⟩ := config
  refine ⟨?_, ?_, ?_, ?_, fun builtins generic => rfl⟩
  · cases o with
    | clang cs => exact fun _ => ⟨cs, rfl⟩
    | other => exact fun h => absurd rfl h
  · intro cs hcs
    cases o with
    | clang cs₂ =>
      injection hcs with hcs
      subst hcs
      rfl
    | other => cases hcs
  · cases i with
    | wrapper es => exact fun _ => ⟨es, rfl⟩
    | other => exact fun h => absurd rfl h
  · intro es hes
    cases i with
    | wrapper es₂ => injection hes with hes
    | other => cases hes

/-- C10 witness: on `cfgDemo` the exclusion list keeps exactly the
`Always`-ignored path of the `Clang` compiler list and the inclusion list
is the `Wrapper` executables list. -/
theorem try_from_path_sets_witness :
    compilers_to_exclude cfgDemo =
      (([{ path := "/usr/bin/cc1", ignore := .always },
         { path := "/usr/bin/gcc", ignore := .never }] : List Config.Compiler).filter
          (fun compiler => compiler.ignore == .always)).map
        (fun compiler => compiler.path) ∧
    compilers_to_include cfgDemo = ["/x/cc"] :=
  ⟨(try_from_path_sets cfgDemo).2.1
      [{ path := "/usr/bin/cc1", ignore := .always },
       { path := "/usr/bin/gcc", ignore := .never }] rfl,
    (try_from_path_sets cfgDemo).2.2.2.1 ["/x/cc"] rfl⟩
